import Mathlib

/-!
Verification development for the `memory-socket` crate (`src/lib.rs`,
`src/async.rs`): an in-memory substitute for TCP sockets built from
unbounded FIFO channels of byte chunks, plus a process-wide switchboard
mapping socket addresses to listener queues.

The Rust code is shallowly embedded as executable Lean functions.

Modelling conventions:
- Bytes are `Nat` (their values are never inspected by the code).
- A `Bytes` chunk is a `List Nat`; the flume channel between a connected
  pair is the FIFO `List` of chunks sent but not yet received, together
  with a `closed` flag that becomes true when the sending side is
  dropped.  flume semantics (an external collaborator of the crate):
  `recv` succeeds whenever a chunk is queued, fails only when the channel
  is both closed and empty; `send`/`try_send` on an unbounded channel
  fails only when the receiving side is dropped.  The `FusedStream`
  `is_terminated` test used by `poll_read` is true exactly when the
  channel is closed and empty (an already-disconnected channel still
  yields its queued chunks, as the crate's own async tests require).
- A `MemorySocket` endpoint is split into the two views the claims need:
  `ReadState` (fields `incoming`, `current_buffer`, `seen_eof` plus the
  inbound channel's closed flag) and `WriteState` (field `write_buffer`
  plus the outbound channel contents and its peer-dropped flag).
- The `SWITCHBOARD` (`HashMap<SocketAddr, Sender<MemorySocket>> × u16`)
  is a list of address/listener-entry pairs (no duplicate keys are ever
  inserted) plus the `Nat` port cursor.  `SocketAddr` is modelled by
  `Addr` (ip and port as `Nat`), with `ip = 0` standing for the
  unspecified/wildcard IP.
-/

namespace MemSock

/-- Result of one blocking `read` call: `ok bytes` models `Ok(n)` with
`bytes` the data copied into the caller's buffer, `eofError` models
`Err(UnexpectedEof)`, and `blocked` marks the case in which the Rust call
would block forever (empty, still-open channel in a sequential run). -/
inductive ReadResult where
  | ok (bytes : List Nat)
  | eofError
  | blocked
deriving DecidableEq, Repr

/-- `std::task::Poll`: a completed value or `Pending`. -/
inductive Poll (α : Type) where
  | ready (a : α)
  | pending
deriving DecidableEq, Repr

/-- Reader-side view of a `MemorySocket` (src/lib.rs:271): the inbound
channel contents (`incoming` queue of chunks plus its closed flag), the
`current_buffer` slot (remaining suffix of the chunk being consumed) and
the `seen_eof` flag. -/
structure ReadState where
  incoming : List (List Nat)
  incomingClosed : Bool
  currentBuffer : Option (List Nat)
  seenEof : Bool
deriving DecidableEq, Repr

/-- Bytes of the current chunk not yet copied out (`Buf::remaining`). -/
def currentRemaining (s : ReadState) : List Nat :=
  s.currentBuffer.getD []

/-- All bytes still deliverable to this reader: remainder of the current
chunk followed by the queued chunks, in FIFO order. -/
def pendingBytes (s : ReadState) : List Nat :=
  currentRemaining s ++ s.incoming.flatten

/-- The `self.incoming.recv()` arm of the blocking `read` loop
(src/lib.rs:364-384), entered with `bytes_read == 0` and an exhausted or
absent current buffer.  Structural recursion over the queued chunks
mirrors the loop re-running `recv` after installing an empty chunk. -/
def recvLoop (closed seenEof : Bool) (cb : Option (List Nat)) (len : Nat) :
    List (List Nat) → ReadResult × ReadState
  | [] =>
    if closed then
      if seenEof then (.eofError, ⟨[], closed, cb, seenEof⟩)
      else (.ok [], ⟨[], closed, cb, true⟩)
    else (.blocked, ⟨[], closed, cb, seenEof⟩)
  | chunk :: rest =>
    if chunk = [] then recvLoop closed seenEof (some []) len rest
    else
      let k := min len chunk.length
      (.ok (chunk.take k), ⟨rest, closed, some (chunk.drop k), seenEof⟩)

/-- Blocking `read` (src/lib.rs:341-387).  A call with a zero-length
buffer returns at the top of the loop; a call finding a non-exhausted
current buffer copies `min(buf.len, remaining)` bytes out of it and, as
the loop then immediately returns (either the buffer is full or bytes
were already read), never consumes a second chunk; otherwise the call
receives from the inbound channel via `recvLoop`. -/
def read (s : ReadState) (len : Nat) : ReadResult × ReadState :=
  if len = 0 then (.ok [], s)
  else if currentRemaining s = [] then
    recvLoop s.incomingClosed s.seenEof s.currentBuffer len s.incoming
  else
    let cb := currentRemaining s
    let k := min len cb.length
    (.ok (cb.take k), { s with currentBuffer := some (cb.drop k) })

/-- The `poll_next` arm of the `poll_read` loop (src/async.rs:111-124).
Differs from `recvLoop` in the channel-closed case: it returns
`Ready(Ok(0))` without touching `seen_eof` (src/async.rs:121), and in
the still-open case it returns `Pending`. -/
def pollRecvLoop (closed seenEof : Bool) (cb : Option (List Nat)) (len : Nat) :
    List (List Nat) → Poll ReadResult × ReadState
  | [] =>
    if closed then (.ready (.ok []), ⟨[], closed, cb, seenEof⟩)
    else (.pending, ⟨[], closed, cb, seenEof⟩)
  | chunk :: rest =>
    if chunk = [] then pollRecvLoop closed seenEof (some []) len rest
    else
      let k := min len chunk.length
      (.ready (.ok (chunk.take k)), ⟨rest, closed, some (chunk.drop k), seenEof⟩)

/-- Non-blocking `poll_read` (src/async.rs:75-127).  Before the copy loop
it tests `self.incoming.is_terminated()` — channel closed and no queued
chunk — and resolves the EOF policy there, even if the `current_buffer`
slot still holds unconsumed bytes; only then does it run the same loop as
the blocking `read`. -/
def pollRead (s : ReadState) (len : Nat) : Poll ReadResult × ReadState :=
  if s.incoming = [] ∧ s.incomingClosed = true then
    if s.seenEof then (.ready .eofError, s)
    else (.ready (.ok []), { s with seenEof := true })
  else if len = 0 then (.ready (.ok []), s)
  else if currentRemaining s = [] then
    pollRecvLoop s.incomingClosed s.seenEof s.currentBuffer len s.incoming
  else
    let cb := currentRemaining s
    let k := min len cb.length
    (.ready (.ok (cb.take k)), { s with currentBuffer := some (cb.drop k) })

/-- Result of a `flush`: `Ok(())` or `Err(BrokenPipe)`. -/
inductive FlushResult where
  | ok
  | brokenPipe
deriving DecidableEq, Repr

/-- Writer-side view of a `MemorySocket`: the `write_buffer` accumulation
buffer, the chunks already sent on the outbound channel (`sent`, oldest
first — these are the peer's queued `incoming` chunks), and whether the
peer has dropped the receiving half (`peerClosed`). -/
structure WriteState where
  writeBuffer : List Nat
  sent : List (List Nat)
  peerClosed : Bool
deriving DecidableEq, Repr

/-- `Write::write` (src/lib.rs:391-394): extend `write_buffer` with the
input and return the full input length.  Total: it never fails. -/
def write (w : WriteState) (buf : List Nat) : Nat × WriteState :=
  (buf.length, { w with writeBuffer := w.writeBuffer ++ buf })

/-- `AsyncWrite::poll_write` (src/async.rs:131-138): same body as
`write`, wrapped in `Poll::Ready`. -/
def pollWrite (w : WriteState) (buf : List Nat) : Poll (Nat × WriteState) :=
  .ready (buf.length, { w with writeBuffer := w.writeBuffer ++ buf })

/-- `Write::flush` (src/lib.rs:396-404): a non-empty `write_buffer` is
split off (clearing it) and sent as one chunk; `send` fails with
`BrokenPipe` exactly when the peer receiver is gone (the split-off chunk
is then dropped).  An empty buffer is a successful no-op. -/
def flush (w : WriteState) : FlushResult × WriteState :=
  if w.writeBuffer = [] then (.ok, w)
  else if w.peerClosed then (.brokenPipe, { w with writeBuffer := [] })
  else (.ok, { w with writeBuffer := [], sent := w.sent ++ [w.writeBuffer] })

/-- `AsyncWrite::poll_flush` (src/async.rs:140-155): same as `flush`
except through `try_send`, whose `Full` case is unreachable on an
unbounded channel; always `Poll::Ready`. -/
def pollFlush (w : WriteState) : Poll (FlushResult × WriteState) :=
  if w.writeBuffer = [] then .ready (.ok, w)
  else if w.peerClosed then .ready (.brokenPipe, { w with writeBuffer := [] })
  else .ready (.ok, { w with writeBuffer := [], sent := w.sent ++ [w.writeBuffer] })

/-- A `SocketAddr` key of the switchboard map: an IP (as an opaque `Nat`,
with `0` standing for the unspecified/wildcard address tested by
`ip().is_unspecified()`) and a port (a `u16` in the source). -/
structure Addr where
  ip : Nat
  port : Nat
deriving DecidableEq, Repr

/-- A freshly constructed `MemorySocket` endpoint as handed out by
`new_pair` (src/lib.rs:280-306): empty inbound channel (still open),
no current chunk, EOF flag clear, empty write buffer.  `connect` delivers
one such endpoint to the listener queue and returns its twin. -/
structure MemorySocket where
  readSide : ReadState
  writeBuffer : List Nat
deriving DecidableEq, Repr

/-- Initial endpoint state produced by `MemorySocket::new` for each half
of `new_pair`. -/
def initSocket : MemorySocket :=
  ⟨⟨[], false, none, false⟩, []⟩

/-- The switchboard's value for a bound address: the
`Sender<MemorySocket>` half of the listener's delivery queue, modelled by
the queue contents plus whether the receiving (`MemoryListener`) half has
been dropped (`closed`), which is when `send` starts failing. -/
structure ListenerEntry where
  pending : List MemorySocket
  closed : Bool
deriving DecidableEq, Repr

/-- Queue state right after `flume::unbounded()` in `bind`. -/
def emptyEntry : ListenerEntry :=
  ⟨[], false⟩

/-- The process-wide `SwitchBoard` (src/lib.rs:31-34): the address map
(association list, keys unique) and the `u16` next-candidate-port
cursor. -/
structure SwitchBoard where
  entries : List (Addr × ListenerEntry)
  cursor : Nat
deriving DecidableEq, Repr

/-- The `Lazy` initial switchboard: empty map, cursor 1. -/
def initSwitchBoard : SwitchBoard :=
  ⟨[], 1⟩

/-- `HashMap::get` on the association list. -/
def lookupEntry (entries : List (Addr × ListenerEntry)) (a : Addr) :
    Option ListenerEntry :=
  match entries with
  | [] => none
  | e :: rest => if e.1 = a then some e.2 else lookupEntry rest a

/-- `HashMap::contains_key`. -/
def containsAddr (entries : List (Addr × ListenerEntry)) (a : Addr) : Bool :=
  (lookupEntry entries a).isSome

/-- Replace the value stored under key `a` (used by `connect`, which
pushes onto the queue through `get_mut`). -/
def updateEntry (entries : List (Addr × ListenerEntry)) (a : Addr)
    (q : ListenerEntry) : List (Addr × ListenerEntry) :=
  entries.map fun e => if e.1 = a then (e.1, q) else e

/-- Cursor advancement inside the `bind` probe loop (src/lib.rs:124-127):
increment, and reset to 1 upon reaching `u16::MAX` (65535) — so 65535 is
a wrap sentinel that is itself never probed, and the cursor is never 0. -/
def nextCursor (c : Nat) : Nat :=
  if c + 1 = 65535 then 1 else c + 1

/-- The `while switchboard.0.contains_key(&address)` probe loop of `bind`
(src/lib.rs:123-132), started at candidate `c` with the loop's saved
`start_port`.  Returns `some p` for the first free port found (the
cursor is left equal to `p`), `none` when the advanced cursor comes back
to `start_port` (`AddrInUse`).  The `fuel` argument only bounds the
recursion; 65534 (the probe cycle length) is enough for every cursor in
the `u16` range the program maintains, as proved below. -/
def probeLoop (entries : List (Addr × ListenerEntry)) (ip : Nat)
    (startPort : Nat) : Nat → Nat → Option Nat
  | 0, _ => none
  | fuel + 1, c =>
    if containsAddr entries ⟨ip, c⟩ then
      let c' := nextCursor c
      if c' = startPort then none
      else probeLoop entries ip startPort fuel c'
    else some c

/-- Outcome of `MemoryListener::bind`. -/
inductive BindOutcome where
  | ok (resolved : Addr)
  | addrInUse
  | addrNotAvailable
deriving DecidableEq, Repr

/-- `MemoryListener::bind` (src/lib.rs:109-145).  Wildcard IP is
rejected; port 0 triggers the auto-assign probe loop (on success the
cursor holds the assigned port); an explicit port already bound is
`AddrInUse`; otherwise a fresh delivery queue is inserted under the
resolved address, which the returned listener records. -/
def bind (sb : SwitchBoard) (a : Addr) : BindOutcome × SwitchBoard :=
  if a.ip = 0 then (.addrNotAvailable, sb)
  else if a.port = 0 then
    match probeLoop sb.entries a.ip sb.cursor 65534 sb.cursor with
    | some p => (.ok ⟨a.ip, p⟩, ⟨(⟨a.ip, p⟩, emptyEntry) :: sb.entries, p⟩)
    | none => (.addrInUse, sb)
  else if containsAddr sb.entries a then (.addrInUse, sb)
  else (.ok a, ⟨(a, emptyEntry) :: sb.entries, sb.cursor⟩)

/-- `Drop for MemoryListener` (src/lib.rs:77-84): remove the listener's
address from the switchboard map (`HashMap::remove`; the cursor is
untouched). -/
def unbind (sb : SwitchBoard) (a : Addr) : SwitchBoard :=
  ⟨sb.entries.filter (fun e => ¬(e.1 = a)), sb.cursor⟩

/-- Outcome of `MemorySocket::connect`. -/
inductive ConnectOutcome where
  | ok (socket : MemorySocket)
  | addrNotAvailable
deriving DecidableEq, Repr

/-- `MemorySocket::connect` (src/lib.rs:323-337): look the address up in
the switchboard; if absent, `AddrNotAvailable`; otherwise build a fresh
pair with `new_pair`, send one endpoint on the listener's delivery queue
(failing with `AddrNotAvailable`, map untouched, if the listener half is
gone) and return the other endpoint. -/
def connect (sb : SwitchBoard) (a : Addr) : ConnectOutcome × SwitchBoard :=
  match lookupEntry sb.entries a with
  | none => (.addrNotAvailable, sb)
  | some q =>
    if q.closed then (.addrNotAvailable, sb)
    else
      (.ok initSocket,
       ⟨updateEntry sb.entries a ⟨q.pending ++ [initSocket], q.closed⟩, sb.cursor⟩)

/-- Invariant of a reader whose peer has been dropped: the inbound
channel is closed, and once EOF has been reported no deliverable bytes
remain. -/
def ReaderInv (s : ReadState) : Prop :=
  s.incomingClosed = true ∧ (s.seenEof = true → pendingBytes s = [])

/-- A peer performing a sequence of `read` calls with the given buffer
sizes, collecting the bytes of every successful read (error or
would-block outcomes contribute nothing). -/
def readAll (s : ReadState) : List Nat → List Nat × ReadState
  | [] => ([], s)
  | n :: rest =>
    match read s n with
    | (.ok b, s1) => (b ++ (readAll s1 rest).1, (readAll s1 rest).2)
    | (.eofError, s1) => readAll s1 rest
    | (.blocked, s1) => readAll s1 rest

/-- One operation of the writing endpoint: a `write` call or a `flush`
call. -/
inductive WriteOp where
  | write (bytes : List Nat)
  | flush
deriving DecidableEq, Repr

/-- State change of the writer performing one operation (the peer's
reading half is alive throughout, so `flush` never fails). -/
def applyOp (w : WriteState) : WriteOp → WriteState
  | .write bs => (write w bs).2
  | .flush => (flush w).2

/-- Writer state after performing a whole sequence of operations,
starting from a fresh endpoint (`new_pair`). -/
def runWriter (ops : List WriteOp) : WriteState :=
  ops.foldl applyOp ⟨[], [], false⟩

/-- Concatenation of all byte slices passed to `write` calls. -/
def writtenBytes : List WriteOp → List Nat
  | [] => []
  | .write bs :: rest => bs ++ writtenBytes rest
  | .flush :: rest => writtenBytes rest

/-- Reader state of the peer once the writer has performed `ops` and been
dropped: the sent chunks are queued on the now-closed inbound channel,
nothing consumed yet. -/
def readerAfterDrop (ops : List WriteOp) : ReadState :=
  ⟨(runWriter ops).sent, true, none, false⟩

/-- Range invariant of the switchboard cursor: it starts at 1 and every
value ever stored (the initial 1, or a probe-loop candidate) lies in
1..=65534 — 65535 is immediately wrapped to 1 and 0 never occurs. -/
def cursorInv (c : Nat) : Prop :=
  1 ≤ c ∧ c ≤ 65534

/-- The j-th candidate port probed by the auto-assign loop when the
cursor starts at `startPort`: the probe walks the cycle
1,...,65534,1,... beginning at `startPort`. -/
def portAt (startPort j : Nat) : Nat :=
  (startPort - 1 + j) % 65534 + 1

/-- Behaviour of one pass through the `recv` arm of the blocking read
loop on a closed channel: it never blocks, an `Ok` result removes
exactly the returned bytes from the deliverable ones, `UnexpectedEof`
happens only with the EOF flag already set and removes nothing, and the
EOF flag is newly set only with nothing deliverable left. -/
theorem recvLoop_step (se : Bool) (n : Nat) :
    ∀ (inc : List (List Nat)) (cb : Option (List Nat)), cb.getD [] = [] →
      (recvLoop true se cb n inc).2.incomingClosed = true ∧
      ((recvLoop true se cb n inc).2.seenEof = true →
        se = true ∨ pendingBytes (recvLoop true se cb n inc).2 = []) ∧
      (recvLoop true se cb n inc).1 ≠ .blocked ∧
      (∀ b, (recvLoop true se cb n inc).1 = .ok b →
        b ++ pendingBytes (recvLoop true se cb n inc).2 = cb.getD [] ++ inc.flatten) ∧
      ((recvLoop true se cb n inc).1 = .eofError →
        se = true ∧
        pendingBytes (recvLoop true se cb n inc).2 = cb.getD [] ++ inc.flatten) := by
  intro inc
  induction inc with
  | nil =>
    intro cb hcb
    cases se with
    | false =>
      simp [recvLoop, pendingBytes, currentRemaining, hcb]
    | true =>
      simp [recvLoop, pendingBytes, currentRemaining, hcb]
  | cons chunk rest ih =>
    intro cb hcb
    by_cases hch : chunk = []
    · have h := ih (some []) rfl
      simpa [recvLoop, hch, hcb] using h
    · refine ⟨?_, ?_, ?_, ?_, ?_⟩ <;>
        simp [recvLoop, hch, pendingBytes, currentRemaining, hcb]
      · intro hse
        exact Or.inl hse
      · rw [← List.append_assoc, List.take_append_drop]

/-- One blocking `read` call on a reader satisfying `ReaderInv`: the
invariant is preserved, the call cannot block, an `Ok` result removes
exactly the returned bytes from the deliverable ones, and an
`UnexpectedEof` removes nothing. -/
theorem read_step (s : ReadState) (n : Nat) (hI : ReaderInv s) :
    ReaderInv (read s n).2 ∧
    (read s n).1 ≠ .blocked ∧
    (∀ b, (read s n).1 = .ok b →
      b ++ pendingBytes (read s n).2 = pendingBytes s) ∧
    ((read s n).1 = .eofError → pendingBytes (read s n).2 = pendingBytes s) := by
  obtain ⟨hc, he⟩ := hI
  by_cases hn : n = 0
  · subst hn
    exact ⟨⟨hc, he⟩, by simp [read], by simp [read], by simp [read]⟩
  · by_cases hcb : currentRemaining s = []
    · have hread : read s n =
          recvLoop s.incomingClosed s.seenEof s.currentBuffer n s.incoming := by
        simp [read, hn, hcb]
      have hpend : pendingBytes s = s.currentBuffer.getD [] ++ s.incoming.flatten := by
        simp [pendingBytes, currentRemaining]
      rw [hc] at hread
      obtain ⟨h1, h2, h3, h4, h5⟩ :=
        recvLoop_step s.seenEof n s.incoming s.currentBuffer hcb
      rw [hread]
      refine ⟨⟨h1, ?_⟩, h3, ?_, ?_⟩
      · intro hse
        rcases h2 hse with hseold | hnil
        · rcases h6 : (recvLoop true s.seenEof s.currentBuffer n s.incoming).1 with b | _ | _
          · have hb := h4 _ h6
            rw [← hpend, he hseold] at hb
            exact (List.append_eq_nil.mp hb).2
          · rw [(h5 h6).2, ← hpend]
            exact he hseold
          · exact absurd h6 h3
        · exact hnil
      · intro b hb
        rw [hpend]
        exact h4 b hb
      · intro hb
        rw [hpend]
        exact (h5 hb).2
    · have hread : read s n =
          (.ok ((currentRemaining s).take (min n (currentRemaining s).length)),
            { s with
              currentBuffer := some ((currentRemaining s).drop (min n (currentRemaining s).length)) }) := by
        simp [read, hn, hcb]
      have hnotEof : s.seenEof = false := by
        cases hse : s.seenEof
        · rfl
        · have hp := he hse
          simp only [pendingBytes, List.append_eq_nil] at hp
          exact absurd hp.1 hcb
      rw [hread]
      refine ⟨⟨hc, ?_⟩, by simp, ?_, by simp⟩
      · intro hse
        simp only at hse
        rw [hnotEof] at hse
        cases hse
      · intro b hb
        simp only [ReadResult.ok.injEq] at hb
        subst hb
        simp only [pendingBytes, currentRemaining, Option.getD_some]
        rw [← List.append_assoc, List.take_append_drop]

/-- Running a sequence of reads on a closed-channel reader preserves the
invariant and the collected bytes are exactly the deliverable bytes that
are no longer pending afterwards. -/
theorem readAll_spec (sizes : List Nat) :
    ∀ s : ReadState, ReaderInv s →
      ReaderInv (readAll s sizes).2 ∧
      (readAll s sizes).1 ++ pendingBytes (readAll s sizes).2 = pendingBytes s := by
  induction sizes with
  | nil => intro s hI; exact ⟨hI, rfl⟩
  | cons n rest ih =>
    intro s hI
    obtain ⟨hInv, hnb, hok, heof⟩ := read_step s n hI
    rcases hr : read s n with ⟨r, s1⟩
    rw [hr] at hInv hnb hok heof
    obtain ⟨ih1, ih2⟩ := ih s1 hInv
    cases r with
    | ok b =>
      have hb := hok b rfl
      simp only [readAll, hr]
      refine ⟨ih1, ?_⟩
      rw [List.append_assoc, ih2, hb]
    | eofError =>
      simp only [readAll, hr]
      exact ⟨ih1, ih2.trans (heof rfl)⟩
    | blocked => exact absurd rfl hnb

/-- Accounting for the writer fold: with a live peer the flushed chunks
followed by the residual accumulation buffer always hold exactly the
written bytes. -/
theorem runWriter_accounting (ops : List WriteOp) :
    ∀ w : WriteState, w.peerClosed = false →
      (ops.foldl applyOp w).peerClosed = false ∧
      (ops.foldl applyOp w).sent.flatten ++ (ops.foldl applyOp w).writeBuffer
        = w.sent.flatten ++ (w.writeBuffer ++ writtenBytes ops) := by
  induction ops with
  | nil => intro w hw; simp [writtenBytes, hw]
  | cons op rest ih =>
    intro w hw
    cases op with
    | write bs =>
      have hstep : applyOp w (.write bs) = ⟨w.writeBuffer ++ bs, w.sent, w.peerClosed⟩ := rfl
      have h := ih ⟨w.writeBuffer ++ bs, w.sent, w.peerClosed⟩ hw
      simp only [List.foldl_cons, hstep, writtenBytes]
      rw [h.2]
      exact ⟨h.1, by simp⟩
    | flush =>
      by_cases hbuf : w.writeBuffer = []
      · have hstep : applyOp w .flush = w := by
          simp [applyOp, flush, hbuf]
        have h := ih w hw
        simp only [List.foldl_cons, hstep, writtenBytes]
        exact ⟨h.1, by rw [h.2, hbuf]⟩
      · have hstep : applyOp w .flush = ⟨[], w.sent ++ [w.writeBuffer], w.peerClosed⟩ := by
          simp [applyOp, flush, hbuf, hw]
        have h := ih ⟨[], w.sent ++ [w.writeBuffer], w.peerClosed⟩ hw
        simp only [List.foldl_cons, hstep, writtenBytes]
        rw [h.2]
        exact ⟨h.1, by simp⟩

/-- C1: for every sequence of write and flush calls performed by one
endpoint and every sequence of read buffer sizes used by its peer, if the
reads reach end-of-stream (the EOF flag gets set) then the concatenation
of the bytes returned by the reads equals the concatenation of the
flushed chunks — and the flushed chunks followed by the residual
write buffer are exactly the bytes passed to the writes, so the reads
return precisely the written-and-flushed bytes, for every chunking of
writes, placement of flushes and sizing of reads. -/
theorem roundTrip_integrity (ops : List WriteOp) (sizes : List Nat)
    (h : (readAll (readerAfterDrop ops) sizes).2.seenEof = true) :
    (readAll (readerAfterDrop ops) sizes).1 = (runWriter ops).sent.flatten ∧
    (runWriter ops).sent.flatten ++ (runWriter ops).writeBuffer = writtenBytes ops := by
  have hI : ReaderInv (readerAfterDrop ops) := by
    refine ⟨rfl, ?_⟩
    intro hse
    simp [readerAfterDrop] at hse
  obtain ⟨hfin, hsum⟩ := readAll_spec sizes (readerAfterDrop ops) hI
  have hfinal : pendingBytes (readAll (readerAfterDrop ops) sizes).2 = [] := hfin.2 h
  have hpend0 : pendingBytes (readerAfterDrop ops) = (runWriter ops).sent.flatten := by
    simp [pendingBytes, currentRemaining, readerAfterDrop]
  constructor
  · rw [hfinal, List.append_nil, hpend0] at hsum
    exact hsum
  · have h2 := runWriter_accounting ops ⟨[], [], false⟩ rfl
    simpa [runWriter] using h2.2

/-- Witness for C1 at a concrete run: writes of [1,2,3], [4,5] (each
flushed) and an unflushed [9]; reads of sizes 2,2,1,7,1 reach EOF and
return exactly 1,2,3,4,5. -/
theorem roundTrip_integrity_check :
    (readAll (readerAfterDrop
        [.write [1,2,3], .flush, .write [4,5], .flush, .write [9]])
        [2,2,1,7,1]).1 = [1,2,3,4,5] ∧
    writtenBytes [.write [1,2,3], .flush, .write [4,5], .flush, .write [9]]
      = [1,2,3,4,5,9] := by
  have h := roundTrip_integrity
    [.write [1,2,3], .flush, .write [4,5], .flush, .write [9]]
    [2,2,1,7,1] (by decide)
  exact ⟨h.1.trans (by decide), by decide⟩

/-- C9: `write` (and `poll_write`) appends all provided bytes to the
write buffer, returns exactly the input length, sends nothing on the
outbound channel, leaves every other field untouched, and cannot fail or
block (both are total functions, the poll variant always `Ready`). -/
theorem write_contract (w : WriteState) (buf : List Nat) :
    write w buf = (buf.length, ⟨w.writeBuffer ++ buf, w.sent, w.peerClosed⟩) ∧
    pollWrite w buf = .ready (buf.length, ⟨w.writeBuffer ++ buf, w.sent, w.peerClosed⟩) :=
  ⟨rfl, rfl⟩

/-- C8: `flush` (and `poll_flush`) on a non-empty write buffer sends its
entire contents as one chunk and clears it, failing with `BrokenPipe`
(nothing delivered) when the peer dropped its receiving half; on an
empty buffer it is a successful no-op sending no chunk. -/
theorem flush_contract (w : WriteState) :
    (w.writeBuffer ≠ [] → w.peerClosed = false →
      flush w = (.ok, ⟨[], w.sent ++ [w.writeBuffer], false⟩) ∧
      pollFlush w = .ready (.ok, ⟨[], w.sent ++ [w.writeBuffer], false⟩)) ∧
    (w.writeBuffer ≠ [] → w.peerClosed = true →
      flush w = (.brokenPipe, ⟨[], w.sent, true⟩) ∧
      pollFlush w = .ready (.brokenPipe, ⟨[], w.sent, true⟩)) ∧
    (w.writeBuffer = [] →
      flush w = (.ok, w) ∧ pollFlush w = .ready (.ok, w)) := by
  refine ⟨?_, ?_, ?_⟩
  · intro hb hp
    constructor <;> simp [flush, pollFlush, hb, hp]
  · intro hb hp
    constructor <;> simp [flush, pollFlush, hb, hp]
  · intro hb
    constructor <;> simp [flush, pollFlush, hb]

/-- Witness for C8 at concrete states: a non-empty buffer with live
peer, a non-empty buffer with dropped peer, and an empty buffer. -/
theorem flush_contract_check :
    flush ⟨[1], [], false⟩ = (.ok, ⟨[], [[1]], false⟩) ∧
    flush ⟨[1], [[2]], true⟩ = (.brokenPipe, ⟨[], [[2]], true⟩) ∧
    flush ⟨[], [[2]], false⟩ = (.ok, ⟨[], [[2]], false⟩) := by
  refine ⟨?_, ?_, ?_⟩
  · exact ((flush_contract ⟨[1], [], false⟩).1 (by decide) rfl).1
  · exact ((flush_contract ⟨[1], [[2]], true⟩).2.1 (by decide) rfl).1
  · exact ((flush_contract ⟨[], [[2]], false⟩).2.2 rfl).1

/-- A non-empty read on an endpoint that has already reported EOF (and
has nothing buffered, the only way the flag ever gets set by the
blocking variant) fails with `UnexpectedEof` and changes nothing. -/
theorem read_after_eof (cb : Option (List Nat)) (n : Nat)
    (hcb : cb.getD [] = []) (hn : n ≠ 0) :
    read ⟨[], true, cb, true⟩ n = (.eofError, ⟨[], true, cb, true⟩) := by
  simp [read, hn, currentRemaining, hcb, recvLoop]

/-- The first non-empty read finding the channel closed and empty with
nothing buffered returns `Ok(0)` and sets the EOF flag. -/
theorem read_first_eof (cb : Option (List Nat)) (n : Nat)
    (hcb : cb.getD [] = []) (hn : n ≠ 0) :
    read ⟨[], true, cb, false⟩ n = (.ok [], ⟨[], true, cb, true⟩) := by
  simp [read, hn, currentRemaining, hcb, recvLoop]

/-- Rebuild a reader state from facts about its fields. -/
theorem readState_eq (s : ReadState) (hinc : s.incoming = [])
    (hc : s.incomingClosed = true) :
    s = ⟨[], true, s.currentBuffer, s.seenEof⟩ := by
  obtain ⟨inc, cl, cb, se⟩ := s
  simp_all

/-- C10: a blocking read into a zero-length buffer returns `Ok(0)`
immediately and leaves the whole endpoint state unchanged — it consumes
no chunk and does not set the EOF flag — and it succeeds like this even
when the EOF flag is already set, while a read into a non-empty buffer
in that situation fails with `UnexpectedEof`. -/
theorem read_zero_length (s : ReadState) (n : Nat) :
    read s 0 = (.ok [], s) ∧
    (s.seenEof = true → s.incoming = [] → s.incomingClosed = true →
      currentRemaining s = [] → n ≠ 0 → read s n = (.eofError, s)) := by
  refine ⟨rfl, ?_⟩
  intro hse hinc hc hcb hn
  have hs : s = ⟨[], true, s.currentBuffer, s.seenEof⟩ := readState_eq s hinc hc
  rw [hse] at hs
  rw [hs]
  exact read_after_eof s.currentBuffer n hcb hn

/-- Witness for C10: a zero-length read succeeds with `Ok(0)` on the
post-EOF state on which a one-byte read fails with `UnexpectedEof`. -/
theorem read_zero_length_check :
    read ⟨[], true, none, true⟩ 0 = (.ok [], ⟨[], true, none, true⟩) ∧
    read ⟨[], true, none, true⟩ 1 = (.eofError, ⟨[], true, none, true⟩) := by
  have h := read_zero_length ⟨[], true, none, true⟩ 1
  exact ⟨h.1, h.2 rfl rfl rfl rfl (by decide)⟩

/-- C2 counterexample: the claim says every read call made after the EOF
flag is set fails with `UnexpectedEof`, but a blocking read into a
zero-length buffer on the post-EOF state (reached here by the first read
on a closed empty channel) returns `Ok(0)` unchanged. -/
theorem eof_once_counterexample :
    read ⟨[], true, none, false⟩ 1 = (.ok [], ⟨[], true, none, true⟩) ∧
    read ⟨[], true, none, true⟩ 0 = (.ok [], ⟨[], true, none, true⟩) ∧
    (ReadResult.ok [] ≠ .eofError) := by
  refine ⟨by decide, by decide, by decide⟩

/-- C2 (amended): in both variants, the first read finding the inbound
channel closed with no buffered data returns a successful zero-byte read
and sets the EOF flag; afterwards every non-empty blocking read and
every poll_read (of any size) fails with `UnexpectedEof` — only a
zero-length blocking read still returns `Ok(0)`, as its buffer-full
check precedes the channel check. -/
theorem eof_once_policy (s : ReadState) (n : Nat) :
    (s.incomingClosed = true → s.incoming = [] → currentRemaining s = [] →
        s.seenEof = false → n ≠ 0 →
      read s n = (.ok [], { s with seenEof := true })) ∧
    (s.incomingClosed = true → s.incoming = [] → currentRemaining s = [] →
        s.seenEof = true → n ≠ 0 →
      read s n = (.eofError, s)) ∧
    (s.incomingClosed = true → s.incoming = [] → currentRemaining s = [] →
        s.seenEof = false →
      pollRead s n = (.ready (.ok []), { s with seenEof := true })) ∧
    (s.incomingClosed = true → s.incoming = [] → s.seenEof = true →
      pollRead s n = (.ready .eofError, s)) := by
  refine ⟨?_, ?_, ?_, ?_⟩
  · intro hc hinc hcb hse hn
    have hs : s = ⟨[], true, s.currentBuffer, s.seenEof⟩ := readState_eq s hinc hc
    rw [hse] at hs
    rw [hs]
    exact read_first_eof s.currentBuffer n hcb hn
  · intro hc hinc hcb hse hn
    have hs : s = ⟨[], true, s.currentBuffer, s.seenEof⟩ := readState_eq s hinc hc
    rw [hse] at hs
    rw [hs]
    exact read_after_eof s.currentBuffer n hcb hn
  · intro hc hinc hcb hse
    simp [pollRead, hinc, hc, hse]
  · intro hc hinc hse
    simp [pollRead, hinc, hc, hse]

/-- Witness for C2 at concrete states: first EOF then persistent error,
in both the blocking and the poll variant. -/
theorem eof_once_policy_check :
    read ⟨[], true, none, false⟩ 3 = (.ok [], ⟨[], true, none, true⟩) ∧
    read ⟨[], true, none, true⟩ 3 = (.eofError, ⟨[], true, none, true⟩) ∧
    pollRead ⟨[], true, none, false⟩ 3 = (.ready (.ok []), ⟨[], true, none, true⟩) ∧
    pollRead ⟨[], true, none, true⟩ 0 = (.ready .eofError, ⟨[], true, none, true⟩) := by
  refine ⟨?_, ?_, ?_, ?_⟩
  · exact (eof_once_policy ⟨[], true, none, false⟩ 3).1 rfl rfl rfl rfl (by decide)
  · exact (eof_once_policy ⟨[], true, none, true⟩ 3).2.1 rfl rfl rfl rfl (by decide)
  · exact (eof_once_policy ⟨[], true, none, false⟩ 3).2.2.1 rfl rfl rfl rfl
  · exact (eof_once_policy ⟨[], true, none, true⟩ 0).2.2.2 rfl rfl rfl

/-- C3: the blocking and poll variants are NOT observably equivalent.
After the peer flushes [1,2] and is dropped, both variants return byte 1
into a 1-byte buffer reaching the same state; from that state the
blocking read returns the buffered byte 2, while `poll_read` hits its
`is_terminated` check first and reports EOF (`Ok(0)`), silently
discarding byte 2 from `current_buffer`. -/
theorem pollRead_read_divergence :
    read ⟨[[1, 2]], true, none, false⟩ 1 = (.ok [1], ⟨[], true, some [2], false⟩) ∧
    pollRead ⟨[[1, 2]], true, none, false⟩ 1 =
      (.ready (.ok [1]), ⟨[], true, some [2], false⟩) ∧
    read ⟨[], true, some [2], false⟩ 1 = (.ok [2], ⟨[], true, some [], false⟩) ∧
    pollRead ⟨[], true, some [2], false⟩ 1 =
      (.ready (.ok []), ⟨[], true, some [2], true⟩) := by
  refine ⟨by decide, by decide, by decide, by decide⟩

theorem portAt_zero (c : Nat) (hc : cursorInv c) : portAt c 0 = c := by
  obtain ⟨h1, h2⟩ := hc
  unfold portAt
  omega

theorem portAt_range (c j : Nat) : 1 ≤ portAt c j ∧ portAt c j ≤ 65534 := by
  unfold portAt
  omega

theorem nextCursor_ne_zero (c : Nat) : nextCursor c ≠ 0 := by
  unfold nextCursor
  split <;> omega

theorem nextCursor_portAt (c : Nat) (hc : cursorInv c) (j : Nat) :
    nextCursor (portAt c j) = portAt c (j + 1) := by
  obtain ⟨h1, h2⟩ := hc
  unfold nextCursor portAt
  split <;> omega

theorem portAt_ne_start (c : Nat) (hc : cursorInv c) (j : Nat)
    (hj1 : 1 ≤ j) (hj2 : j < 65534) : portAt c j ≠ c := by
  obtain ⟨h1, h2⟩ := hc
  unfold portAt
  omega

theorem portAt_wrap (c : Nat) (hc : cursorInv c) : portAt c 65534 = c := by
  obtain ⟨h1, h2⟩ := hc
  unfold portAt
  omega

theorem portAt_surj (c : Nat) (hc : cursorInv c) (p : Nat)
    (hp1 : 1 ≤ p) (hp2 : p ≤ 65534) :
    ∃ j, j < 65534 ∧ portAt c j = p := by
  obtain ⟨h1, h2⟩ := hc
  refine ⟨(p + 65534 - c) % 65534, by omega, ?_⟩
  unfold portAt
  omega

/-- A port returned by the probe loop is free. -/
theorem probeLoop_free (entries : List (Addr × ListenerEntry)) (ip startPort : Nat) :
    ∀ fuel c p, probeLoop entries ip startPort fuel c = some p →
      containsAddr entries ⟨ip, p⟩ = false := by
  intro fuel
  induction fuel with
  | zero =>
    intro c p h
    simp [probeLoop] at h
  | succ f ih =>
    intro c p h
    by_cases hb : containsAddr entries ⟨ip, c⟩ = true
    · rw [probeLoop, if_pos hb] at h
      by_cases hs : nextCursor c = startPort
      · rw [if_pos hs] at h
        cases h
      · rw [if_neg hs] at h
        exact ih _ _ h
    · rw [probeLoop, if_neg hb] at h
      cases h
      cases hcon : containsAddr entries ⟨ip, c⟩
      · rfl
      · exact absurd hcon hb

/-- A port returned by the probe loop is nonzero, provided the starting
candidate is. -/
theorem probeLoop_ne_zero (entries : List (Addr × ListenerEntry)) (ip startPort : Nat) :
    ∀ fuel c p, c ≠ 0 → probeLoop entries ip startPort fuel c = some p → p ≠ 0 := by
  intro fuel
  induction fuel with
  | zero =>
    intro c p _ h
    simp [probeLoop] at h
  | succ f ih =>
    intro c p hc h
    by_cases hb : containsAddr entries ⟨ip, c⟩ = true
    · rw [probeLoop, if_pos hb] at h
      by_cases hs : nextCursor c = startPort
      · rw [if_pos hs] at h
        cases h
      · rw [if_neg hs] at h
        exact ih _ _ (nextCursor_ne_zero c) h
    · rw [probeLoop, if_neg hb] at h
      cases h
      exact hc

/-- The probe loop started at the j-th candidate with the remaining fuel
of one full wrap fails exactly when every remaining candidate of the
wrap is bound. -/
theorem probeLoop_none_iff (entries : List (Addr × ListenerEntry)) (ip c : Nat)
    (hc : cursorInv c) :
    ∀ fuel j, j + fuel = 65534 →
      (probeLoop entries ip c fuel (portAt c j) = none ↔
        ∀ i, j ≤ i → i < 65534 → containsAddr entries ⟨ip, portAt c i⟩ = true) := by
  intro fuel
  induction fuel with
  | zero =>
    intro j hj
    simp only [probeLoop, true_iff]
    intro i hji hi
    omega
  | succ f ih =>
    intro j hj
    by_cases hb : containsAddr entries ⟨ip, portAt c j⟩ = true
    · rw [probeLoop, if_pos hb, nextCursor_portAt c hc j]
      by_cases hj1 : j + 1 = 65534
      · have hwrap : portAt c (j + 1) = c := by
          rw [hj1]
          exact portAt_wrap c hc
        rw [if_pos hwrap]
        constructor
        · intro _ i hji hi
          have heq : i = j := by omega
          rw [heq]
          exact hb
        · intro _
          rfl
      · have hne : portAt c (j + 1) ≠ c := portAt_ne_start c hc (j + 1) (by omega) (by omega)
        rw [if_neg hne, ih (j + 1) (by omega)]
        constructor
        · intro hall i hji hi
          rcases Nat.eq_or_lt_of_le hji with heq | hlt
          · rw [← heq]
            exact hb
          · exact hall i hlt hi
        · intro hall i hji hi
          exact hall i (by omega) hi
    · rw [probeLoop, if_neg hb]
      simp only [reduceCtorEq, false_iff]
      intro hall
      exact hb (hall j (le_refl j) (by omega))

/-- A success of the probe loop started at the j-th candidate is the
first free candidate from position j on. -/
theorem probeLoop_some_first (entries : List (Addr × ListenerEntry)) (ip c : Nat)
    (hc : cursorInv c) :
    ∀ fuel j p, j + fuel = 65534 →
      probeLoop entries ip c fuel (portAt c j) = some p →
      ∃ i, j ≤ i ∧ i < 65534 ∧ p = portAt c i ∧
        containsAddr entries ⟨ip, portAt c i⟩ = false ∧
        ∀ m, j ≤ m → m < i → containsAddr entries ⟨ip, portAt c m⟩ = true := by
  intro fuel
  induction fuel with
  | zero =>
    intro j p hj h
    simp [probeLoop] at h
  | succ f ih =>
    intro j p hj h
    by_cases hb : containsAddr entries ⟨ip, portAt c j⟩ = true
    · rw [probeLoop, if_pos hb, nextCursor_portAt c hc j] at h
      by_cases hj1 : j + 1 = 65534
      · have hwrap : portAt c (j + 1) = c := by
          rw [hj1]
          exact portAt_wrap c hc
        rw [if_pos hwrap] at h
        cases h
      · have hne : portAt c (j + 1) ≠ c := portAt_ne_start c hc (j + 1) (by omega) (by omega)
        rw [if_neg hne] at h
        obtain ⟨i, hi1, hi2, hi3, hi4, hi5⟩ := ih (j + 1) p (by omega) h
        refine ⟨i, by omega, hi2, hi3, hi4, ?_⟩
        intro m hm1 hm2
        rcases Nat.eq_or_lt_of_le hm1 with heq | hlt
        · rw [← heq]
          exact hb
        · exact hi5 m hlt hm2
    · rw [probeLoop, if_neg hb] at h
      cases h
      refine ⟨j, le_refl j, by omega, rfl, ?_, ?_⟩
      · cases hcon : containsAddr entries ⟨ip, portAt c j⟩
        · rfl
        · exact absurd hcon hb
      · intro m hm1 hm2
        omega

/-- C4 (amended): for a registry whose cursor satisfies its range
invariant, bind with port 0 auto-assigns: the resolved port is the first
candidate of the probe cycle (starting at the cursor, wrapping from
65534 back to 1, never visiting 0) whose address is free, all earlier
candidates being bound; on success the entry is inserted and the cursor
is left AT the assigned port (not past it); it fails with `AddrInUse`,
registry unchanged, exactly when all 65534 candidate ports of one full
wrap are bound for that IP. -/
theorem bind_autoAssign (sb : SwitchBoard) (a : Addr)
    (hc : cursorInv sb.cursor) (hp : a.port = 0) (hip : a.ip ≠ 0) :
    (∀ r sb2, bind sb a = (.ok r, sb2) →
      r.ip = a.ip ∧
      containsAddr sb.entries r = false ∧
      sb2.cursor = r.port ∧
      sb2.entries = (r, emptyEntry) :: sb.entries ∧
      ∃ j, j < 65534 ∧ r.port = portAt sb.cursor j ∧
        ∀ i, i < j → containsAddr sb.entries ⟨a.ip, portAt sb.cursor i⟩ = true) ∧
    ((bind sb a).1 = .addrInUse ↔
      ∀ p, 1 ≤ p → p ≤ 65534 → containsAddr sb.entries ⟨a.ip, p⟩ = true) ∧
    ((bind sb a).1 = .addrInUse → (bind sb a).2 = sb) ∧
    nextCursor 65534 = 1 ∧ (∀ c, nextCursor c ≠ 0) := by
  have hstart : portAt sb.cursor 0 = sb.cursor := portAt_zero sb.cursor hc
  rcases hpl : probeLoop sb.entries a.ip sb.cursor 65534 sb.cursor with _ | p
  · have hbind : bind sb a = (.addrInUse, sb) := by
      simp [bind, hip, hp, hpl]
    have hnone := (probeLoop_none_iff sb.entries a.ip sb.cursor hc 65534 0 rfl)
    rw [hstart] at hnone
    refine ⟨?_, ?_, ?_, by decide, nextCursor_ne_zero⟩
    · intro r sb2 heq
      rw [hbind] at heq
      cases heq
    · rw [hbind]
      simp only [true_iff]
      intro p hp1 hp2
      obtain ⟨j, hj, hpj⟩ := portAt_surj sb.cursor hc p hp1 hp2
      rw [← hpj]
      exact hnone.mp hpl j (Nat.zero_le j) hj
    · intro _
      rw [hbind]
  · have hbind : bind sb a =
        (.ok ⟨a.ip, p⟩, ⟨(⟨a.ip, p⟩, emptyEntry) :: sb.entries, p⟩) := by
      simp [bind, hip, hp, hpl]
    have hpl0 : probeLoop sb.entries a.ip sb.cursor 65534 (portAt sb.cursor 0) = some p := by
      rw [hstart]
      exact hpl
    obtain ⟨i, _, hi2, hi3, hi4, hi5⟩ :=
      probeLoop_some_first sb.entries a.ip sb.cursor hc 65534 0 p rfl hpl0
    refine ⟨?_, ?_, ?_, by decide, nextCursor_ne_zero⟩
    · intro r sb2 heq
      rw [hbind] at heq
      obtain ⟨h1, h2⟩ := Prod.mk.injEq .. ▸ heq
      cases h1
      cases h2
      refine ⟨rfl, ?_, rfl, rfl, i, hi2, hi3, ?_⟩
      · rw [hi3]
        exact hi4
      · intro m hm
        exact hi5 m (Nat.zero_le m) hm
    · rw [hbind]
      simp only [reduceCtorEq, false_iff]
      intro hall
      have := hall (portAt sb.cursor i) (portAt_range sb.cursor i).1 (portAt_range sb.cursor i).2
      rw [this] at hi4
      cases hi4
    · intro hfail
      rw [hbind] at hfail
      cases hfail

/-- C4 counterexample: the claim says that on finding a free port bind
advances the cursor past it, but binding port 0 on the fresh registry
(cursor 1) assigns port 1 and leaves the cursor equal to 1 — at the
assigned port, not past it. -/
theorem bind_autoAssign_counterexample :
    bind ⟨[], 1⟩ ⟨7, 0⟩ = (.ok ⟨7, 1⟩, ⟨[(⟨7, 1⟩, emptyEntry)], 1⟩) ∧
    (bind ⟨[], 1⟩ ⟨7, 0⟩).2.cursor = (⟨7, 1⟩ : Addr).port := by
  refine ⟨by decide, by decide⟩

/-- Witness for C4 on the empty registry with cursor 1: port 1 is
assigned and the cursor stays at 1 (the just-bound port). -/
theorem bind_autoAssign_check :
    bind ⟨[], 1⟩ ⟨7, 0⟩ = (.ok ⟨7, 1⟩, ⟨[(⟨7, 1⟩, emptyEntry)], 1⟩) ∧
    (⟨[(⟨7, 1⟩, emptyEntry)], 1⟩ : SwitchBoard).cursor = (⟨7, 1⟩ : Addr).port ∧
    nextCursor 65534 = 1 := by
  have h := bind_autoAssign ⟨[], 1⟩ ⟨7, 0⟩ (by constructor <;> decide) rfl (by decide)
  have hb : bind ⟨[], 1⟩ ⟨7, 0⟩ = (.ok ⟨7, 1⟩, ⟨[(⟨7, 1⟩, emptyEntry)], 1⟩) := by decide
  have h1 := h.1 ⟨7, 1⟩ ⟨[(⟨7, 1⟩, emptyEntry)], 1⟩ hb
  exact ⟨hb, h1.2.2.1, h.2.2.2.1⟩

/-- Facts about every successful bind: the resolved address keeps the
requested IP, was free beforehand, gets inserted at the front of the
map, resolves to a nonzero port when auto-assigned from a nonzero
cursor, and equals the request when the port was explicit. -/
theorem bind_ok_spec (sb : SwitchBoard) (a r : Addr) (sb2 : SwitchBoard)
    (h : bind sb a = (.ok r, sb2)) :
    r.ip = a.ip ∧ containsAddr sb.entries r = false ∧
    sb2.entries = (r, emptyEntry) :: sb.entries ∧
    (a.port = 0 → sb.cursor ≠ 0 → r.port ≠ 0) ∧
    (a.port ≠ 0 → r = a) := by
  by_cases hip : a.ip = 0
  · rw [bind, if_pos hip] at h
    cases h
  by_cases hp : a.port = 0
  · rcases hpl : probeLoop sb.entries a.ip sb.cursor 65534 sb.cursor with _ | p
    · have hbind : bind sb a = (.addrInUse, sb) := by
        simp [bind, hip, hp, hpl]
      rw [hbind] at h
      cases h
    · have hbind : bind sb a =
          (.ok ⟨a.ip, p⟩, ⟨(⟨a.ip, p⟩, emptyEntry) :: sb.entries, p⟩) := by
        simp [bind, hip, hp, hpl]
      rw [hbind] at h
      obtain ⟨h1, h2⟩ := Prod.mk.injEq .. ▸ h
      cases h1
      cases h2
      refine ⟨rfl, probeLoop_free sb.entries a.ip sb.cursor 65534 sb.cursor p hpl,
        rfl, ?_, ?_⟩
      · intro _ hcz
        exact probeLoop_ne_zero sb.entries a.ip sb.cursor 65534 sb.cursor p hcz hpl
      · intro hcon
        exact absurd hp hcon
  · by_cases hcon : containsAddr sb.entries a = true
    · have hbind : bind sb a = (.addrInUse, sb) := by
        simp [bind, hip, hp, hcon]
      rw [hbind] at h
      cases h
    · have hbind : bind sb a = (.ok a, ⟨(a, emptyEntry) :: sb.entries, sb.cursor⟩) := by
        simp [bind, hip, hp, hcon]
      rw [hbind] at h
      obtain ⟨h1, h2⟩ := Prod.mk.injEq .. ▸ h
      cases h1
      cases h2
      refine ⟨rfl, ?_, rfl, fun hz => absurd hz hp, fun _ => rfl⟩
      cases hcc : containsAddr sb.entries a
      · rfl
      · exact absurd hcc hcon

/-- Looking an address up after `unbind` removed it yields nothing. -/
theorem lookupEntry_unbind_self (entries : List (Addr × ListenerEntry)) (a : Addr) :
    lookupEntry (entries.filter fun e => ¬(e.1 = a)) a = none := by
  induction entries with
  | nil => rfl
  | cons e rest ih =>
    by_cases he : e.1 = a
    · simpa [List.filter_cons, he] using ih
    · simpa [List.filter_cons, he, lookupEntry] using ih

/-- C5: two successive successful port-0 binds for the same IP resolve
to different addresses while the first listener lives, and after the
first listener is dropped its exact former address binds again. -/
theorem port_zero_unique_and_reusable (sb sb1 sb2 : SwitchBoard) (ip : Nat)
    (a1 a2 : Addr) (hcur : sb.cursor ≠ 0)
    (h1 : bind sb ⟨ip, 0⟩ = (.ok a1, sb1))
    (h2 : bind sb1 ⟨ip, 0⟩ = (.ok a2, sb2)) :
    a1 ≠ a2 ∧ (bind (unbind sb1 a1) a1).1 = .ok a1 := by
  have hip : ip ≠ 0 := by
    intro h0
    rw [h0] at h1
    rw [bind, if_pos rfl] at h1
    cases h1
  obtain ⟨s1ip, s1free, s1ent, s1port, _⟩ := bind_ok_spec sb ⟨ip, 0⟩ a1 sb1 h1
  obtain ⟨s2ip, s2free, s2ent, s2port, _⟩ := bind_ok_spec sb1 ⟨ip, 0⟩ a2 sb2 h2
  have ha1ip : a1.ip ≠ 0 := by
    rw [s1ip]
    exact hip
  have ha1port : a1.port ≠ 0 := s1port rfl hcur
  constructor
  · intro heq
    have hbound : containsAddr sb1.entries a1 = true := by
      rw [s1ent]
      simp [containsAddr, lookupEntry]
    rw [heq, s2free] at hbound
    cases hbound
  · have hfree : containsAddr (unbind sb1 a1).entries a1 = false := by
      simp only [unbind, containsAddr]
      rw [lookupEntry_unbind_self]
      rfl
    simp [bind, ha1ip, ha1port, hfree]

/-- Witness for C5 starting from the initial switchboard: the two
auto-assigned addresses are ports 1 and 2 of IP 7, and after dropping
the first listener its address (7,1) binds again. -/
theorem port_zero_unique_and_reusable_check :
    ((⟨7, 1⟩ : Addr) ≠ ⟨7, 2⟩) ∧
    (bind (unbind ⟨[(⟨7, 1⟩, emptyEntry)], 1⟩ ⟨7, 1⟩) ⟨7, 1⟩).1 = .ok ⟨7, 1⟩ := by
  exact port_zero_unique_and_reusable ⟨[], 1⟩ ⟨[(⟨7, 1⟩, emptyEntry)], 1⟩
    ⟨[(⟨7, 2⟩, emptyEntry), (⟨7, 1⟩, emptyEntry)], 2⟩ 7 ⟨7, 1⟩ ⟨7, 2⟩
    (by decide) (by decide) (by decide)

/-- C6: binding an explicitly specified address already held by a live
listener fails with `AddrInUse` leaving the registry unchanged, and
binding the unspecified wildcard IP always fails with
`AddrNotAvailable`, also leaving it unchanged, whatever the registry
state. -/
theorem bind_collision_and_wildcard (sb : SwitchBoard) (a : Addr) :
    (a.ip = 0 → bind sb a = (.addrNotAvailable, sb)) ∧
    (a.ip ≠ 0 → a.port ≠ 0 → containsAddr sb.entries a = true →
      bind sb a = (.addrInUse, sb)) := by
  constructor
  · intro h
    rw [bind, if_pos h]
  · intro h1 h2 h3
    simp [bind, h1, h2, h3]

/-- Witness for C6: explicit rebinding of the bound address (7,1) fails
with `AddrInUse`, and binding the wildcard IP 0 fails with
`AddrNotAvailable`, both leaving the registry as it was. -/
theorem bind_collision_and_wildcard_check :
    bind ⟨[(⟨7, 1⟩, emptyEntry)], 1⟩ ⟨7, 1⟩ =
      (.addrInUse, ⟨[(⟨7, 1⟩, emptyEntry)], 1⟩) ∧
    bind ⟨[(⟨7, 1⟩, emptyEntry)], 1⟩ ⟨0, 9⟩ =
      (.addrNotAvailable, ⟨[(⟨7, 1⟩, emptyEntry)], 1⟩) := by
  constructor
  · exact (bind_collision_and_wildcard ⟨[(⟨7, 1⟩, emptyEntry)], 1⟩ ⟨7, 1⟩).2
      (by decide) (by decide) (by decide)
  · exact (bind_collision_and_wildcard ⟨[(⟨7, 1⟩, emptyEntry)], 1⟩ ⟨0, 9⟩).1 rfl

/-- C7: connect fails with `AddrNotAvailable` exactly when the address
is absent from the registry or the resolved listener queue no longer
accepts (listener half gone), leaving the registry unchanged; otherwise
it appends one fresh endpoint of a new pair to that listener queue and
returns the other fresh endpoint. -/
theorem connect_contract (sb : SwitchBoard) (a : Addr) :
    ((connect sb a).1 = .addrNotAvailable ↔
      lookupEntry sb.entries a = none ∨
        ∃ q, lookupEntry sb.entries a = some q ∧ q.closed = true) ∧
    (∀ q, lookupEntry sb.entries a = some q → q.closed = false →
      connect sb a =
        (.ok initSocket,
         ⟨updateEntry sb.entries a ⟨q.pending ++ [initSocket], false⟩, sb.cursor⟩)) ∧
    ((connect sb a).1 = .addrNotAvailable → (connect sb a).2 = sb) := by
  rcases hl : lookupEntry sb.entries a with _ | q
  · refine ⟨?_, ?_, ?_⟩
    · simp [connect, hl]
    · intro q hq
      cases hq
    · intro _
      simp [connect, hl]
  · by_cases hc : q.closed = true
    · refine ⟨?_, ?_, ?_⟩
      · simp only [connect, hl, hc, if_true, true_iff]
        exact Or.inr ⟨q, rfl, hc⟩
      · intro q2 hq2 hq2c
        cases hq2
        rw [hq2c] at hc
        cases hc
      · intro _
        simp [connect, hl, hc]
    · have hcf : q.closed = false := by
        cases hb : q.closed
        · rfl
        · exact absurd hb hc
      refine ⟨?_, ?_, ?_⟩
      · simp only [connect, hl, hcf, Bool.false_eq_true, if_false]
        simp only [reduceCtorEq, false_iff]
        intro hcase
        rcases hcase with hnone | ⟨q2, hq2, hq2c⟩
        · cases hnone
        · cases hq2
          rw [hq2c] at hcf
          cases hcf
      · intro q2 hq2 _
        cases hq2
        simp [connect, hl, hcf]
      · intro hfail
        simp only [connect, hl, hcf, Bool.false_eq_true, if_false] at hfail
        cases hfail

/-- Witness for C7: connecting to the bound address (7,1) appends one
fresh endpoint to its queue and returns the other; connecting to the
unbound (7,2) fails, registry unchanged. -/
theorem connect_contract_check :
    connect ⟨[(⟨7, 1⟩, emptyEntry)], 1⟩ ⟨7, 1⟩ =
      (.ok initSocket, ⟨[(⟨7, 1⟩, ⟨[initSocket], false⟩)], 1⟩) ∧
    connect ⟨[(⟨7, 1⟩, emptyEntry)], 1⟩ ⟨7, 2⟩ =
      (.addrNotAvailable, ⟨[(⟨7, 1⟩, emptyEntry)], 1⟩) := by
  constructor
  · have h := (connect_contract ⟨[(⟨7, 1⟩, emptyEntry)], 1⟩ ⟨7, 1⟩).2.1
      emptyEntry (by decide) rfl
    exact h.trans (by decide)
  · have h := (connect_contract ⟨[(⟨7, 1⟩, emptyEntry)], 1⟩ ⟨7, 2⟩).2.2
      (by decide)
    exact Prod.ext (by decide) h

end MemSock
